import Mathlib

/-
Verification of the bulk-load spatial indexing and batch assignment core of
the GeometriaComputacional repository.

Shallow embedding conventions:
  - Coordinates are modelled as exact rationals (the algorithmic claims are
    about comparisons, ordering and bookkeeping, which are identical under
    exact arithmetic); the kilometre-to-degree conversion of the query
    engine, which multiplies by pi, is modelled over the reals.
  - Distances are represented by their squares (distSq); every comparison
    the code performs on distances is monotone in the square, and both
    pipelines of the batch assignment compute the same quantity, so
    equality and ordering statements transfer verbatim.
  - A raw CSV record is a pair of optional rationals: none stands for a
    missing value (dropped by dropna) or a non-finite value (NaN compares
    false in every bounding-box test, so it is rejected exactly like a
    missing value; infinities lie outside the box and are rejected by the
    same filter).
  - scipy.spatial.cKDTree is modelled by its documented observable
    behaviour on the stored coordinate list: query_ball_point returns the
    indices within a Euclidean radius; query returns the k nearest
    indices, padded with the sentinel index n (the documented
    missing-neighbour marker) when k exceeds the number of indexed
    points. On exact distance ties the order among equally near
    neighbours is NOT documented by scipy: the concrete functions below
    use the smallest-index rule (which is also np.argmin's documented
    first-minimum rule), and every result that depends on the k-d tree's
    tie choice is settled through the IsNearestChoice contract instead,
    quantifying over all admissible tie resolutions.
  - Exceptions that the Python code catches are modelled by the value the
    handler returns; exceptions that propagate out of a script are
    modelled by an explicit uncaughtValueError outcome.
-/

namespace GeoComp

/-- Point as an ordered (latitude, longitude) pair, coordinates in decimal
degrees, modelled as exact rationals. -/
abbrev Pt := ℚ × ℚ

/-- Squared Euclidean distance in raw degree space, the metric cKDTree is
built over (the points are inserted as bare (lat, lon) rows). -/
def distSq (p q : Pt) : ℚ :=
  (p.1 - q.1) ^ 2 + (p.2 - q.2) ^ 2

/-- Raw ingestion record: a (LATITUDE, LONGITUDE) CSV row after numeric
parsing; none is a missing or non-finite entry. -/
abbrev RawRecord := Option ℚ × Option ℚ

/-- Bounding-box filter hard-coded in bulk_insert_points (lines 64 to 67 of
fast_postgis_like.py): the Sao Paulo region. -/
def inSaoPauloBox (p : Pt) : Prop :=
  -24 ≤ p.1 ∧ p.1 ≤ -23 ∧ -47 ≤ p.2 ∧ p.2 ≤ -46

instance : DecidablePred inSaoPauloBox := fun p => by
  unfold inSaoPauloBox; infer_instance

/-- Records kept by bulk_insert_points: dropna discards rows with a missing
coordinate, then the Sao Paulo box mask keeps the rest, in order. -/
def acceptedPoints (rows : List RawRecord) : List Pt :=
  rows.filterMap fun r =>
    match r with
    | (some la, some lo) => if inSaoPauloBox (la, lo) then some (la, lo) else none
    | _ => none

/-- Count of ingestion records rejected by the dropna and bounding-box
filters. The spec asserts this count is part of the bulk-load result; the
code never computes it, so this definition only serves to state that
claim. -/
def rejectedCount (rows : List RawRecord) : ℕ :=
  rows.length - (acceptedPoints rows).length

/-- Observable state of a FastPostGISLike instance: the stored point list
and the optional spatial index (a snapshot of the coordinates it was
built over; None until a build succeeds). -/
structure FastState where
  points : List Pt
  kdtree : Option (List Pt)
deriving DecidableEq

/-- Freshly constructed instance: empty store, no index. -/
def initState : FastState :=
  { points := [], kdtree := none }

/-- Model of FastPostGISLike.bulk_insert_points on an already parsed row
list: filter the rows, store the survivors, then build the index. When no
row survives, cKDTree(np.array of an empty list) raises ValueError (the
one-dimensional empty array is not two-dimensional); the except handler
returns False, with self.points already overwritten and the index left as
it was. -/
def bulk_insert_points (st : FastState) (rows : List RawRecord) : FastState × Bool :=
  if (acceptedPoints rows).isEmpty then
    ({ points := acceptedPoints rows, kdtree := st.kdtree }, false)
  else
    ({ points := acceptedPoints rows, kdtree := some (acceptedPoints rows) }, true)

/-- Comparison key used to model nearest-neighbour retrieval: pairs of
(squared distance, index) ordered by distance first, index second. -/
def knnOrder (a b : ℚ × ℕ) : Prop :=
  a.1 < b.1 ∨ (a.1 = b.1 ∧ a.2 ≤ b.2)

instance : DecidableRel knnOrder := fun a b => by
  unfold knnOrder; infer_instance

instance : IsTotal (ℚ × ℕ) knnOrder :=
  ⟨fun a b => by
    unfold knnOrder
    rcases lt_trichotomy a.1 b.1 with h | h | h
    · exact Or.inl (Or.inl h)
    · rcases le_total a.2 b.2 with h2 | h2
      · exact Or.inl (Or.inr ⟨h, h2⟩)
      · exact Or.inr (Or.inr ⟨h.symm, h2⟩)
    · exact Or.inr (Or.inl h)⟩

instance : IsTrans (ℚ × ℕ) knnOrder :=
  ⟨fun a b c hab hbc => by
    unfold knnOrder at *
    rcases hab with h1 | h1 <;> rcases hbc with h2 | h2
    · exact Or.inl (h1.trans h2)
    · exact Or.inl (lt_of_lt_of_le h1 (le_of_eq h2.1))
    · exact Or.inl (lt_of_le_of_lt (le_of_eq h1.1) h2)
    · exact Or.inr ⟨h1.1.trans h2.1, h1.2.trans h2.2⟩⟩

/-- Model of the distance-sorted neighbour list a cKDTree query produces
over the stored points: every index paired with its squared distance to
the query point, sorted by distance (ties by index). -/
def kdQuerySorted (pts : List Pt) (q : Pt) : List (ℚ × ℕ) :=
  List.insertionSort knnOrder
    ((List.range pts.length).map fun i => (distSq (pts.getD i (0, 0)) q, i))

/-- Model of cKDTree.query for one query point: the k nearest indices,
padded with the sentinel index pts.length (scipy's documented
missing-neighbour marker) when k exceeds the number of indexed points. -/
def knnIndices (pts : List Pt) (q : Pt) (k : ℕ) : List ℕ :=
  ((kdQuerySorted pts q).map Prod.snd).take k ++
    List.replicate (k - pts.length) pts.length

/-- Model of FastPostGISLike.fast_nearest_points (lines 118 to 143): no
index gives an empty answer; k at most 0 makes the scipy call raise
ValueError, which the except handler turns into an empty list; otherwise
one index list per query point (the k equal 1 branch produces the same
shape). -/
def fast_nearest_points (st : FastState) (queryPoints : List Pt) (k : ℤ) : List (List ℕ) :=
  match st.kdtree with
  | none => []
  | some pts =>
    if k ≤ 0 then []
    else queryPoints.map fun q => knnIndices pts q k.toNat

/-- Single nearest reference point of p: index of the closest reference
and its squared distance, resolving exact-distance ties by the smallest
index. This is np.argmin's documented first-minimum rule, so it models
the full-matrix pipeline's cdist row argmin exactly; for the k-d tree
pipeline it is one admissible instance of the IsNearestChoice contract
below, whose tie order scipy does not document. The empty-reference
value is junk and unreachable in every theorem below, since both scripts
crash earlier when the reference set is empty. -/
def nearestRef (refs : List Pt) (p : Pt) : ℕ × ℚ :=
  match kdQuerySorted refs p with
  | [] => (0, 0)
  | x :: _ => (x.2, x.1)

/-- Assignment record: subject identity, nearest reference identity, and
the (squared) distance, mirroring the per-point dictionaries built by
both Voronoi scripts. The reference identity is the index into the
reference list; both scripts translate it through the same fixed
node_ids table, which is therefore omitted. -/
structure AssignmentRecord where
  subjectIdx : ℕ
  nearestNodeIdx : ℕ
  dist : ℚ
deriving DecidableEq

/-- Assignment records for one slice of the subject list whose first
element has global identity base: the j-th point of the slice is tagged
base + j, exactly the global_idx = i + j bookkeeping of
voronoi_optimized.py line 93. -/
def assignFrom (refs : List Pt) (subj : List Pt) (base : ℕ) : List AssignmentRecord :=
  (subj.enumFrom base).map fun ip =>
    { subjectIdx := ip.1
      nearestNodeIdx := (nearestRef refs ip.2).1
      dist := (nearestRef refs ip.2).2 }

/-- Chunk loop of create_optimized_voronoi_assignment (lines 84 to 101):
process chunkSize subject points per iteration, keeping the pre-chunking
identity offset. The chunkSize equal 0 branch is unreachable from the
wrapper below and only serves termination. -/
def assignChunkedAux (refs : List Pt) (chunkSize : ℕ) (subj : List Pt) (base : ℕ) :
    List AssignmentRecord :=
  if h : chunkSize = 0 ∨ subj = [] then []
  else
    assignFrom refs (subj.take chunkSize) base ++
      assignChunkedAux refs chunkSize (subj.drop chunkSize) (base + chunkSize)
termination_by subj.length
decreasing_by
  simp only [List.length_drop]
  push_neg at h
  exact Nat.sub_lt (List.length_pos.mpr h.2) (Nat.pos_of_ne_zero h.1)

/-- Outcome of a batch assignment run. The ok constructor carries the
record list in subject order. The emptyReferenceSet constructor is
modelled from the spec: it is the typed failure the spec promises for an
empty reference set; the code has no such value and is proved below
never to produce it. The uncaughtValueError constructor models an
exception (scipy ValueError on an empty or malformed input) escaping the
script uncaught. -/
inductive AssignOutcome where
  | ok (records : List AssignmentRecord)
  | emptyReferenceSet
  | uncaughtValueError
deriving DecidableEq

/-- Model of create_optimized_voronoi_assignment, voronoi_optimized.py:
with an empty reference list, cKDTree(np.array of an empty list) raises
ValueError before any chunk runs, and nothing catches it; a zero chunk
size would make range raise ValueError likewise; otherwise the chunk
loop runs to completion. The per-point 1-nearest query is rendered here
with nearestRef's smallest-index tie rule; results that depend on that
tie choice are settled against the parametrized form
create_optimized_voronoi_assignment_nn below instead. -/
def create_optimized_voronoi_assignment (refs subj : List Pt) (chunkSize : ℕ) :
    AssignOutcome :=
  if refs.isEmpty then .uncaughtValueError
  else if chunkSize = 0 then .uncaughtValueError
  else .ok (assignChunkedAux refs chunkSize subj 0)

/-- Model of the assignment pass of create_voronoi_assignment,
voronoi_assignment.py lines 85 to 105: one cdist distance matrix, one
np.argmin per subject row (first minimum), records keyed 0, 1, 2 and so
on in subject order. The scipy Voronoi diagram built earlier in that
script is never consulted by the assignment and is omitted. -/
def create_voronoi_assignment (refs subj : List Pt) : List AssignmentRecord :=
  subj.enum.map fun ip =>
    { subjectIdx := ip.1
      nearestNodeIdx := (nearestRef refs ip.2).1
      dist := (nearestRef refs ip.2).2 }

/-- Contract of a 1-nearest-neighbour query against a reference index
(cKDTree.query with k equal 1): on a nonempty reference list it returns
a valid reference index together with that index's squared distance to
the query point, and no reference is strictly nearer. Which minimizing
index is returned on an exact distance tie is deliberately NOT fixed:
scipy does not document its tie order. -/
def IsNearestChoice (pick : List Pt → Pt → ℕ × ℚ) : Prop :=
  ∀ refs p, refs ≠ [] →
    (pick refs p).1 < refs.length ∧
    (pick refs p).2 = distSq (refs.getD (pick refs p).1 (0, 0)) p ∧
    ∀ j < refs.length, (pick refs p).2 ≤ distSq (refs.getD j (0, 0)) p

/-- Mirror of knnOrder preferring the larger index on equal distances:
another total order compatible with distance, used to build a second
admissible tie resolution. -/
def knnOrderRev (a b : ℚ × ℕ) : Prop :=
  a.1 < b.1 ∨ (a.1 = b.1 ∧ b.2 ≤ a.2)

instance : DecidableRel knnOrderRev := fun a b => by
  unfold knnOrderRev; infer_instance

instance : IsTotal (ℚ × ℕ) knnOrderRev :=
  ⟨fun a b => by
    unfold knnOrderRev
    rcases lt_trichotomy a.1 b.1 with h | h | h
    · exact Or.inl (Or.inl h)
    · rcases le_total b.2 a.2 with h2 | h2
      · exact Or.inl (Or.inr ⟨h, h2⟩)
      · exact Or.inr (Or.inr ⟨h.symm, h2⟩)
    · exact Or.inr (Or.inl h)⟩

instance : IsTrans (ℚ × ℕ) knnOrderRev :=
  ⟨fun a b c hab hbc => by
    unfold knnOrderRev at *
    rcases hab with h1 | h1 <;> rcases hbc with h2 | h2
    · exact Or.inl (h1.trans h2)
    · exact Or.inl (lt_of_lt_of_le h1 (le_of_eq h2.1))
    · exact Or.inl (lt_of_le_of_lt (le_of_eq h1.1) h2)
    · exact Or.inr ⟨h1.1.trans h2.1, h2.2.trans h1.2⟩⟩

/-- Distance-sorted neighbour list under the mirrored tie order. -/
def kdQuerySortedRev (pts : List Pt) (q : Pt) : List (ℚ × ℕ) :=
  List.insertionSort knnOrderRev
    ((List.range pts.length).map fun i => (distSq (pts.getD i (0, 0)) q, i))

/-- A contract-conforming 1-nearest choice returning the LARGEST
minimizing index: witnesses that the undocumented cKDTree tie order
does not pin down the identity np.argmin's first-minimum rule picks. -/
def nearestRefLast (refs : List Pt) (p : Pt) : ℕ × ℚ :=
  match kdQuerySortedRev refs p with
  | [] => (0, 0)
  | x :: _ => (x.2, x.1)

/-- The minimizing reference index for p is unique: no exact distance
tie at the minimum. -/
def UniqueNearest (refs : List Pt) (p : Pt) : Prop :=
  ∀ i < refs.length, ∀ j < refs.length,
    (∀ m < refs.length, distSq (refs.getD i (0, 0)) p ≤ distSq (refs.getD m (0, 0)) p) →
    (∀ m < refs.length, distSq (refs.getD j (0, 0)) p ≤ distSq (refs.getD m (0, 0)) p) →
    i = j

instance (refs : List Pt) (p : Pt) : Decidable (UniqueNearest refs p) := by
  unfold UniqueNearest; infer_instance

/-- assignFrom generalized over the 1-nearest choice function the
reference index implements; assignFrom is its nearestRef instance
(assignFromNN_nearestRef below). -/
def assignFromNN (pick : List Pt → Pt → ℕ × ℚ) (refs subj : List Pt) (base : ℕ) :
    List AssignmentRecord :=
  (subj.enumFrom base).map fun ip =>
    { subjectIdx := ip.1
      nearestNodeIdx := (pick refs ip.2).1
      dist := (pick refs ip.2).2 }

/-- Chunk loop of voronoi_optimized.py generalized over the 1-nearest
choice function. -/
def assignChunkedAuxNN (pick : List Pt → Pt → ℕ × ℚ) (refs : List Pt) (chunkSize : ℕ)
    (subj : List Pt) (base : ℕ) : List AssignmentRecord :=
  if h : chunkSize = 0 ∨ subj = [] then []
  else
    assignFromNN pick refs (subj.take chunkSize) base ++
      assignChunkedAuxNN pick refs chunkSize (subj.drop chunkSize) (base + chunkSize)
termination_by subj.length
decreasing_by
  simp only [List.length_drop]
  push_neg at h
  exact Nat.sub_lt (List.length_pos.mpr h.2) (Nat.pos_of_ne_zero h.1)

/-- create_optimized_voronoi_assignment generalized over the tie
behaviour of the reference index's 1-nearest query, which scipy leaves
unspecified: every IsNearestChoice instantiation is an admissible run
of the chunked script. Instantiating with nearestRef (the
smallest-index rule) recovers the concrete model above, see
create_optimized_nn_nearestRef. -/
def create_optimized_voronoi_assignment_nn (pick : List Pt → Pt → ℕ × ℚ)
    (refs subj : List Pt) (chunkSize : ℕ) : AssignOutcome :=
  if refs.isEmpty then .uncaughtValueError
  else if chunkSize = 0 then .uncaughtValueError
  else .ok (assignChunkedAuxNN pick refs chunkSize subj 0)

noncomputable section

/-- Coordinate cast from the exact rational store into the real-valued
query plane. -/
def toR (p : Pt) : ℝ × ℝ := ((p.1 : ℝ), (p.2 : ℝ))

/-- Squared Euclidean distance over the reals. -/
def distSqR (p q : ℝ × ℝ) : ℝ :=
  (p.1 - q.1) ^ 2 + (p.2 - q.2) ^ 2

/-- Denominator of the longitude conversion exactly as fast_spatial_query
line 107 writes it: 111.32 times the absolute centre latitude times pi
over 180. Note the missing cosine; this is the latitude converted to
radians, not the cosine of it. -/
def kmPerDegLon (lat : ℝ) : ℝ := 111.32 * |lat| * Real.pi / 180

/-- Latitude radius in degrees, fast_spatial_query line 106. -/
def latRadius (radiusKm : ℝ) : ℝ := radiusKm / 111.32

/-- Longitude radius in degrees, fast_spatial_query line 107. -/
def lonRadius (radiusKm lat : ℝ) : ℝ := radiusKm / kmPerDegLon lat

/-- Modelled from the spec: the longitude conversion the spec section 4.3
states, dividing by the cosine of the centre latitude expressed in
radians. The code does not contain this formula; it exists here only to
compare against lonRadius. -/
def lonRadiusSpec (radiusKm lat : ℝ) : ℝ :=
  radiusKm / (111.32 * Real.cos (lat * Real.pi / 180))

/-- Squared kilometre distance from the query centre under the linearized
per-axis conversion the code itself uses: latitude degrees scale by
111.32 km, longitude degrees by kmPerDegLon of the centre latitude. -/
def kmDistSq (center p : ℝ × ℝ) : ℝ :=
  (111.32 * (p.1 - center.1)) ^ 2 + (kmPerDegLon center.1 * (p.2 - center.2)) ^ 2

/-- Model of FastPostGISLike.fast_spatial_query (lines 89 to 116): no index
gives an empty answer; a centre on the equator makes the longitude
conversion divide by zero, the ZeroDivisionError is caught and an empty
list returned (hence the centre latitude nonzero conjunct); otherwise
query_ball_point returns every stored index within Euclidean degree
distance max(latRadius, lonRadius) of the centre. -/
def fast_spatial_query (st : FastState) (center : ℝ × ℝ) (radiusKm : ℝ) : Set ℕ :=
  match st.kdtree with
  | none => ∅
  | some pts =>
    { i | center.1 ≠ 0 ∧ ∃ hp : i < pts.length,
        distSqR (toR (pts.get ⟨i, hp⟩)) center ≤
          (max (latRadius radiusKm) (lonRadius radiusKm center.1)) ^ 2 }

end

/-- Every point surviving the ingestion filter lies in the hard-coded
Sao Paulo bounding box. -/
theorem mem_acceptedPoints_box {rows : List RawRecord} {p : Pt}
    (hp : p ∈ acceptedPoints rows) : inSaoPauloBox p := by
  unfold acceptedPoints at hp
  rw [List.mem_filterMap] at hp
  obtain ⟨r, -, hr⟩ := hp
  obtain ⟨_ | la, _ | lo⟩ := r
  · exact absurd hr (by simp)
  · exact absurd hr (by simp)
  · exact absurd hr (by simp)
  · dsimp only at hr
    by_cases hbox : inSaoPauloBox (la, lo)
    · rw [if_pos hbox] at hr
      cases hr
      exact hbox
    · rw [if_neg hbox] at hr
      cases hr

/-- A successful bulk insert stores exactly the filtered points and builds
the index over that same list. -/
theorem bulk_insert_points_true {st st' : FastState} {rows : List RawRecord}
    (h : bulk_insert_points st rows = (st', true)) :
    st'.points = acceptedPoints rows ∧ st'.kdtree = some (acceptedPoints rows) := by
  unfold bulk_insert_points at h
  by_cases he : (acceptedPoints rows).isEmpty
  · rw [if_pos he] at h
    exact absurd (congrArg Prod.snd h) (by simp)
  · rw [if_neg he] at h
    have hfst := congrArg Prod.fst h
    simp only at hfst
    rw [← hfst]
    exact ⟨rfl, rfl⟩

theorem length_kdQuerySorted (pts : List Pt) (q : Pt) :
    (kdQuerySorted pts q).length = pts.length := by
  unfold kdQuerySorted
  rw [List.length_insertionSort, List.length_map, List.length_range]

/-- Every entry of the modelled neighbour list is a valid index paired with
its own squared distance to the query point. -/
theorem mem_kdQuerySorted {pts : List Pt} {q : Pt} {x : ℚ × ℕ}
    (hx : x ∈ kdQuerySorted pts q) :
    x.2 < pts.length ∧ x.1 = distSq (pts.getD x.2 (0, 0)) q := by
  unfold kdQuerySorted at hx
  rw [List.mem_insertionSort, List.mem_map] at hx
  obtain ⟨i, hi, rfl⟩ := hx
  rw [List.mem_range] at hi
  exact ⟨hi, rfl⟩

/-- A k-nearest answer always carries exactly k entries (scipy pads short
indexes with the sentinel). -/
theorem length_knnIndices (pts : List Pt) (q : Pt) (k : ℕ) :
    (knnIndices pts q k).length = k := by
  unfold knnIndices
  rw [List.length_append, List.length_take, List.length_map, length_kdQuerySorted,
    List.length_replicate]
  omega

/-- Without padding (k at most the index size) every returned index is a
valid identity. -/
theorem mem_knnIndices_lt {pts : List Pt} {q : Pt} {k : ℕ} (hk : k ≤ pts.length)
    {i : ℕ} (hi : i ∈ knnIndices pts q k) : i < pts.length := by
  unfold knnIndices at hi
  rw [List.mem_append] at hi
  rcases hi with hi | hi
  · have hi2 := List.mem_of_mem_take hi
    rw [List.mem_map] at hi2
    obtain ⟨x, hx, rfl⟩ := hi2
    exact (mem_kdQuerySorted hx).1
  · rw [List.mem_replicate] at hi
    omega

/-- Without padding, a k-nearest answer is ascending in distance. -/
theorem knnIndices_pairwise (pts : List Pt) (q : Pt) (k : ℕ) (hk : k ≤ pts.length) :
    (knnIndices pts q k).Pairwise
      (fun i j => distSq (pts.getD i (0, 0)) q ≤ distSq (pts.getD j (0, 0)) q) := by
  unfold knnIndices
  have h0 : k - pts.length = 0 := Nat.sub_eq_zero_of_le hk
  rw [h0, List.replicate_zero, List.append_nil]
  have hs : (kdQuerySorted pts q).Pairwise knnOrder :=
    List.sorted_insertionSort knnOrder _
  have hs2 : (kdQuerySorted pts q).Pairwise
      (fun a b => distSq (pts.getD a.2 (0, 0)) q ≤ distSq (pts.getD b.2 (0, 0)) q) := by
    refine hs.imp_of_mem ?_
    intro a b ha hb hab
    obtain ⟨-, ha2⟩ := mem_kdQuerySorted ha
    obtain ⟨-, hb2⟩ := mem_kdQuerySorted hb
    rw [← ha2, ← hb2]
    unfold knnOrder at hab
    rcases hab with h | h
    · exact le_of_lt h
    · exact le_of_eq h.1
  have hmap : ((kdQuerySorted pts q).map Prod.snd).Pairwise
      (fun i j => distSq (pts.getD i (0, 0)) q ≤ distSq (pts.getD j (0, 0)) q) :=
    List.pairwise_map.mpr hs2
  exact List.Pairwise.sublist (List.take_sublist _ _) hmap

@[simp]
theorem assignFrom_nil (refs : List Pt) (base : ℕ) :
    assignFrom refs [] base = [] := rfl

theorem enumFrom_append {α : Type} (l1 l2 : List α) (n : ℕ) :
    (l1 ++ l2).enumFrom n = l1.enumFrom n ++ l2.enumFrom (n + l1.length) := by
  induction l1 generalizing n with
  | nil => simp
  | cons a t ih =>
    have harith : n + 1 + t.length = n + (t.length + 1) := by omega
    simp [List.enumFrom_cons, ih, harith]

theorem assignFrom_append (refs : List Pt) (l1 l2 : List Pt) (base : ℕ) :
    assignFrom refs (l1 ++ l2) base =
      assignFrom refs l1 base ++ assignFrom refs l2 (base + l1.length) := by
  unfold assignFrom
  rw [enumFrom_append, List.map_append]

/-- Chunk bookkeeping is invisible: the chunk loop started at any offset
produces exactly the records of the direct per-point map from that
offset, whatever the (positive) chunk size. -/
theorem assignChunkedAux_eq (refs : List Pt) (c : ℕ) (hc : c ≠ 0) :
    ∀ n (subj : List Pt), subj.length ≤ n → ∀ base,
      assignChunkedAux refs c subj base = assignFrom refs subj base := by
  intro n
  induction n with
  | zero =>
    intro subj hlen base
    have hnil : subj = [] := List.length_eq_zero.mp (Nat.le_zero.mp hlen)
    subst hnil
    rw [assignChunkedAux]
    simp
  | succ n ih =>
    intro subj hlen base
    by_cases hs : subj = []
    · subst hs
      rw [assignChunkedAux]
      simp
    · rw [assignChunkedAux, dif_neg (by push_neg; exact ⟨hc, hs⟩)]
      have hdrop : (subj.drop c).length ≤ n := by
        rw [List.length_drop]
        have hpos : 0 < subj.length := List.length_pos.mpr hs
        omega
      rw [ih _ hdrop]
      by_cases hcl : c ≤ subj.length
      · conv_rhs => rw [← List.take_append_drop c subj]
        rw [assignFrom_append]
        have h1 : (List.take c subj).length = c := by
          rw [List.length_take]
          omega
        rw [h1]
      · push_neg at hcl
        rw [List.take_of_length_le (le_of_lt hcl), List.drop_eq_nil_of_le (le_of_lt hcl)]
        simp

/-- With a nonempty reference set and a positive chunk size, the optimized
batch run completes and produces the direct per-point record list. -/
theorem create_optimized_eq (refs subj : List Pt) (c : ℕ)
    (href : refs ≠ []) (hc : c ≠ 0) :
    create_optimized_voronoi_assignment refs subj c =
      AssignOutcome.ok (assignFrom refs subj 0) := by
  unfold create_optimized_voronoi_assignment
  rw [if_neg (by simpa using href), if_neg hc,
    assignChunkedAux_eq refs c hc subj.length subj le_rfl 0]

/-- The full-matrix pipeline is the direct per-point map from offset 0. -/
theorem create_voronoi_assignment_eq (refs subj : List Pt) :
    create_voronoi_assignment refs subj = assignFrom refs subj 0 := rfl

@[simp]
theorem assignFromNN_nil (pick : List Pt → Pt → ℕ × ℚ) (refs : List Pt) (base : ℕ) :
    assignFromNN pick refs [] base = [] := rfl

theorem assignFromNN_append (pick : List Pt → Pt → ℕ × ℚ) (refs l1 l2 : List Pt) (base : ℕ) :
    assignFromNN pick refs (l1 ++ l2) base =
      assignFromNN pick refs l1 base ++ assignFromNN pick refs l2 (base + l1.length) := by
  unfold assignFromNN
  rw [enumFrom_append, List.map_append]

/-- Chunk bookkeeping is invisible for every 1-nearest choice function:
the parametrized chunk loop started at any offset equals the direct
per-point map from that offset, whatever the positive chunk size. -/
theorem assignChunkedAuxNN_eq (pick : List Pt → Pt → ℕ × ℚ) (refs : List Pt) (c : ℕ)
    (hc : c ≠ 0) :
    ∀ n (subj : List Pt), subj.length ≤ n → ∀ base,
      assignChunkedAuxNN pick refs c subj base = assignFromNN pick refs subj base := by
  intro n
  induction n with
  | zero =>
    intro subj hlen base
    have hnil : subj = [] := List.length_eq_zero.mp (Nat.le_zero.mp hlen)
    subst hnil
    rw [assignChunkedAuxNN]
    simp
  | succ n ih =>
    intro subj hlen base
    by_cases hs : subj = []
    · subst hs
      rw [assignChunkedAuxNN]
      simp
    · rw [assignChunkedAuxNN, dif_neg (by push_neg; exact ⟨hc, hs⟩)]
      have hdrop : (subj.drop c).length ≤ n := by
        rw [List.length_drop]
        have hpos : 0 < subj.length := List.length_pos.mpr hs
        omega
      rw [ih _ hdrop]
      by_cases hcl : c ≤ subj.length
      · conv_rhs => rw [← List.take_append_drop c subj]
        rw [assignFromNN_append]
        have h1 : (List.take c subj).length = c := by
          rw [List.length_take]
          omega
        rw [h1]
      · push_neg at hcl
        rw [List.take_of_length_le (le_of_lt hcl), List.drop_eq_nil_of_le (le_of_lt hcl)]
        simp

/-- With a nonempty reference set and a positive chunk size, the
parametrized batch run completes and produces the direct per-point
record list of its choice function. -/
theorem create_optimized_nn_eq (pick : List Pt → Pt → ℕ × ℚ) (refs subj : List Pt)
    (c : ℕ) (href : refs ≠ []) (hc : c ≠ 0) :
    create_optimized_voronoi_assignment_nn pick refs subj c =
      AssignOutcome.ok (assignFromNN pick refs subj 0) := by
  unfold create_optimized_voronoi_assignment_nn
  rw [if_neg (by simpa using href), if_neg hc,
    assignChunkedAuxNN_eq pick refs c hc subj.length subj le_rfl 0]

/-- The nearestRef instance of the parametrized per-point map is the
concrete one. -/
theorem assignFromNN_nearestRef (refs subj : List Pt) (base : ℕ) :
    assignFromNN nearestRef refs subj base = assignFrom refs subj base := rfl

/-- Instantiating the parametrized pipeline with the smallest-index tie
rule recovers the concrete model of voronoi_optimized.py. -/
theorem create_optimized_nn_nearestRef (refs subj : List Pt) (c : ℕ) :
    create_optimized_voronoi_assignment_nn nearestRef refs subj c =
      create_optimized_voronoi_assignment refs subj c := by
  unfold create_optimized_voronoi_assignment_nn create_optimized_voronoi_assignment
  by_cases h1 : refs.isEmpty
  · rw [if_pos h1, if_pos h1]
  · by_cases h2 : c = 0
    · rw [if_neg h1, if_neg h1, if_pos h2, if_pos h2]
    · rw [if_neg h1, if_neg h1, if_neg h2, if_neg h2]
      rw [assignChunkedAuxNN_eq nearestRef refs c h2 subj.length subj le_rfl 0,
        assignChunkedAux_eq refs c h2 subj.length subj le_rfl 0,
        assignFromNN_nearestRef]

theorem knnOrder_fst_le {a b : ℚ × ℕ} (h : knnOrder a b) : a.1 ≤ b.1 := by
  unfold knnOrder at h
  rcases h with h | h
  · exact le_of_lt h
  · exact le_of_eq h.1

theorem knnOrderRev_fst_le {a b : ℚ × ℕ} (h : knnOrderRev a b) : a.1 ≤ b.1 := by
  unfold knnOrderRev at h
  rcases h with h | h
  · exact le_of_lt h
  · exact le_of_eq h.1

/-- The head of any insertion sort under a distance-compatible total
order carries a minimal distance. -/
theorem head_min_of_insertionSort {r : ℚ × ℕ → ℚ × ℕ → Prop} [DecidableRel r]
    [IsTotal (ℚ × ℕ) r] [IsTrans (ℚ × ℕ) r]
    (hr : ∀ a b : ℚ × ℕ, r a b → a.1 ≤ b.1) {l : List (ℚ × ℕ)} {x : ℚ × ℕ}
    {rest : List (ℚ × ℕ)} (hx : List.insertionSort r l = x :: rest) :
    ∀ y ∈ l, x.1 ≤ y.1 := by
  intro y hy
  have hy2 : y ∈ x :: rest := by
    rw [← hx, List.mem_insertionSort]
    exact hy
  rcases List.mem_cons.mp hy2 with rfl | hy3
  · exact le_refl _
  · have hsorted : List.Sorted r (x :: rest) := by
      rw [← hx]
      exact List.sorted_insertionSort r l
    exact hr _ _ ((List.sorted_cons.mp hsorted).1 y hy3)

theorem length_kdQuerySortedRev (pts : List Pt) (q : Pt) :
    (kdQuerySortedRev pts q).length = pts.length := by
  unfold kdQuerySortedRev
  rw [List.length_insertionSort, List.length_map, List.length_range]

theorem mem_kdQuerySortedRev {pts : List Pt} {q : Pt} {x : ℚ × ℕ}
    (hx : x ∈ kdQuerySortedRev pts q) :
    x.2 < pts.length ∧ x.1 = distSq (pts.getD x.2 (0, 0)) q := by
  unfold kdQuerySortedRev at hx
  rw [List.mem_insertionSort, List.mem_map] at hx
  obtain ⟨i, hi, rfl⟩ := hx
  rw [List.mem_range] at hi
  exact ⟨hi, rfl⟩

/-- The smallest-index rule satisfies the 1-nearest contract. -/
theorem nearestRef_isNearestChoice : IsNearestChoice nearestRef := by
  intro refs p hne
  obtain ⟨x, rest, hx⟩ : ∃ x rest, kdQuerySorted refs p = x :: rest := by
    cases hsort : kdQuerySorted refs p with
    | nil =>
      have hlen := length_kdQuerySorted refs p
      rw [hsort] at hlen
      exact absurd (List.length_eq_zero.mp hlen.symm) hne
    | cons x rest => exact ⟨x, rest, rfl⟩
  have hnr : nearestRef refs p = (x.2, x.1) := by
    unfold nearestRef
    rw [hx]
  have hxmem : x ∈ kdQuerySorted refs p := by
    rw [hx]
    exact List.mem_cons_self _ _
  obtain ⟨hlt, hdist⟩ := mem_kdQuerySorted hxmem
  rw [hnr]
  refine ⟨hlt, hdist, ?_⟩
  intro j hj
  have hbase : (distSq (refs.getD j (0, 0)) p, j) ∈
      (List.range refs.length).map fun i => (distSq (refs.getD i (0, 0)) p, i) :=
    List.mem_map.mpr ⟨j, List.mem_range.mpr hj, rfl⟩
  have hx' : List.insertionSort knnOrder
      ((List.range refs.length).map fun i => (distSq (refs.getD i (0, 0)) p, i)) =
      x :: rest := hx
  exact head_min_of_insertionSort (fun a b h => knnOrder_fst_le h) hx' _ hbase

/-- The largest-index rule also satisfies the 1-nearest contract. -/
theorem nearestRefLast_isNearestChoice : IsNearestChoice nearestRefLast := by
  intro refs p hne
  obtain ⟨x, rest, hx⟩ : ∃ x rest, kdQuerySortedRev refs p = x :: rest := by
    cases hsort : kdQuerySortedRev refs p with
    | nil =>
      have hlen := length_kdQuerySortedRev refs p
      rw [hsort] at hlen
      exact absurd (List.length_eq_zero.mp hlen.symm) hne
    | cons x rest => exact ⟨x, rest, rfl⟩
  have hnr : nearestRefLast refs p = (x.2, x.1) := by
    unfold nearestRefLast
    rw [hx]
  have hxmem : x ∈ kdQuerySortedRev refs p := by
    rw [hx]
    exact List.mem_cons_self _ _
  obtain ⟨hlt, hdist⟩ := mem_kdQuerySortedRev hxmem
  rw [hnr]
  refine ⟨hlt, hdist, ?_⟩
  intro j hj
  have hbase : (distSq (refs.getD j (0, 0)) p, j) ∈
      (List.range refs.length).map fun i => (distSq (refs.getD i (0, 0)) p, i) :=
    List.mem_map.mpr ⟨j, List.mem_range.mpr hj, rfl⟩
  have hx' : List.insertionSort knnOrderRev
      ((List.range refs.length).map fun i => (distSq (refs.getD i (0, 0)) p, i)) =
      x :: rest := hx
  exact head_min_of_insertionSort (fun a b h => knnOrderRev_fst_le h) hx' _ hbase

/-- When the nearest reference of p is unique, every contract-conforming
choice agrees with the first-minimum rule. -/
theorem pick_eq_nearestRef (pick : List Pt → Pt → ℕ × ℚ) (hpick : IsNearestChoice pick)
    (refs : List Pt) (p : Pt) (hne : refs ≠ []) (hu : UniqueNearest refs p) :
    pick refs p = nearestRef refs p := by
  obtain ⟨hlt, hdist, hmin⟩ := hpick refs p hne
  obtain ⟨hlt2, hdist2, hmin2⟩ := nearestRef_isNearestChoice refs p hne
  have hidx : (pick refs p).1 = (nearestRef refs p).1 := by
    refine hu _ hlt _ hlt2 ?_ ?_
    · intro m hm
      rw [← hdist]
      exact hmin m hm
    · intro m hm
      rw [← hdist2]
      exact hmin2 m hm
  have hd : (pick refs p).2 = (nearestRef refs p).2 := by
    rw [hdist, hdist2, hidx]
  exact Prod.ext hidx hd

/-- Two equally distant entries sort head-first under the larger-index
tie order without the distance value ever being computed. -/
theorem insertionSortRev_pair (d : ℚ) :
    List.insertionSort knnOrderRev [(d, 0), (d, 1)] = [(d, 1), (d, 0)] := by
  have h1 : ¬ knnOrderRev (d, 0) (d, 1) := by
    intro hcon
    unfold knnOrderRev at hcon
    rcases hcon with hlt | ⟨-, hle⟩
    · exact lt_irrefl d hlt
    · exact Nat.not_succ_le_zero 0 hle
  simp [List.insertionSort, List.orderedInsert, h1]

/-- Two equally distant entries keep their order under the smaller-index
tie order. -/
theorem insertionSortFwd_pair (d : ℚ) :
    List.insertionSort knnOrder [(d, 0), (d, 1)] = [(d, 0), (d, 1)] := by
  have h1 : knnOrder (d, 0) (d, 1) := Or.inr ⟨rfl, Nat.zero_le 1⟩
  simp [List.insertionSort, List.orderedInsert, h1]

/-- C4 counterexample: the identity equality between the chunked k-d
tree pipeline and the full-matrix np.argmin pipeline is not entailed by
the program, because cKDTree.query's tie order is undocumented:
nearestRefLast is a choice conforming to the 1-nearest contract, and on
a subject at distance 0 from two duplicate reference points the chunked
run under that choice returns reference identity 1 while cdist plus
np.argmin returns identity 0, so the records differ. -/
theorem c4_counterexample :
    IsNearestChoice nearestRefLast ∧
    create_optimized_voronoi_assignment_nn nearestRefLast [(0, 0), (0, 0)] [(0, 0)] 1 ≠
      AssignOutcome.ok (create_voronoi_assignment [(0, 0), (0, 0)] [(0, 0)]) := by
  refine ⟨nearestRefLast_isNearestChoice, ?_⟩
  rw [create_optimized_nn_eq nearestRefLast [(0, 0), (0, 0)] [(0, 0)] 1
    (by decide) (by decide)]
  have hlast : nearestRefLast [((0 : ℚ), (0 : ℚ)), ((0 : ℚ), (0 : ℚ))] ((0 : ℚ), (0 : ℚ)) =
      (1, distSq ((0 : ℚ), (0 : ℚ)) ((0 : ℚ), (0 : ℚ))) := by
    have hb : kdQuerySortedRev [((0 : ℚ), (0 : ℚ)), ((0 : ℚ), (0 : ℚ))] ((0 : ℚ), (0 : ℚ)) =
        List.insertionSort knnOrderRev
          [(distSq ((0 : ℚ), (0 : ℚ)) ((0 : ℚ), (0 : ℚ)), 0),
            (distSq ((0 : ℚ), (0 : ℚ)) ((0 : ℚ), (0 : ℚ)), 1)] := rfl
    unfold nearestRefLast
    rw [hb, insertionSortRev_pair]
  have hfirst : nearestRef [((0 : ℚ), (0 : ℚ)), ((0 : ℚ), (0 : ℚ))] ((0 : ℚ), (0 : ℚ)) =
      (0, distSq ((0 : ℚ), (0 : ℚ)) ((0 : ℚ), (0 : ℚ))) := by
    have hb : kdQuerySorted [((0 : ℚ), (0 : ℚ)), ((0 : ℚ), (0 : ℚ))] ((0 : ℚ), (0 : ℚ)) =
        List.insertionSort knnOrder
          [(distSq ((0 : ℚ), (0 : ℚ)) ((0 : ℚ), (0 : ℚ)), 0),
            (distSq ((0 : ℚ), (0 : ℚ)) ((0 : ℚ), (0 : ℚ)), 1)] := rfl
    unfold nearestRef
    rw [hb, insertionSortFwd_pair]
  have hA : assignFromNN nearestRefLast [((0 : ℚ), (0 : ℚ)), ((0 : ℚ), (0 : ℚ))]
      [((0 : ℚ), (0 : ℚ))] 0 =
      [⟨0, 1, distSq ((0 : ℚ), (0 : ℚ)) ((0 : ℚ), (0 : ℚ))⟩] := by
    unfold assignFromNN
    simp only [List.enumFrom, List.map]
    rw [hlast]
  have hB : create_voronoi_assignment [((0 : ℚ), (0 : ℚ)), ((0 : ℚ), (0 : ℚ))]
      [((0 : ℚ), (0 : ℚ))] =
      [⟨0, 0, distSq ((0 : ℚ), (0 : ℚ)) ((0 : ℚ), (0 : ℚ))⟩] := by
    unfold create_voronoi_assignment
    simp only [List.enum, List.enumFrom, List.map]
    rw [hfirst]
  rw [hA, hB]
  intro hcon
  have hidx : (1 : ℕ) = 0 := congrArg
    (fun o => match o with
      | AssignOutcome.ok (r :: _) => r.nearestNodeIdx
      | _ => 0) hcon
  exact absurd hidx (by decide)

/-- C4 amended: for every tie behaviour admitted by the reference
index's 1-nearest contract, the chunked batch assignment yields
identical records for any two positive chunk sizes (chunking never
influences which reference is chosen); and whenever every subject point
has a unique nearest reference (no exact distance tie at the minimum),
those records moreover coincide with the unchunked full-distance-matrix
computation of voronoi_assignment.py. On tied inputs the coincidence is
not guaranteed, since the k-d tree's choice among equally near
references is the library's unspecified one; see the counterexample. -/
theorem c4_amended (pick : List Pt → Pt → ℕ × ℚ) (hpick : IsNearestChoice pick)
    (refs subj : List Pt) (c1 c2 : ℕ)
    (href : refs ≠ []) (h1 : 0 < c1) (h2 : 0 < c2) :
    create_optimized_voronoi_assignment_nn pick refs subj c1 =
      create_optimized_voronoi_assignment_nn pick refs subj c2 ∧
    ((∀ p ∈ subj, UniqueNearest refs p) →
      create_optimized_voronoi_assignment_nn pick refs subj c1 =
        AssignOutcome.ok (create_voronoi_assignment refs subj)) := by
  have e1 := create_optimized_nn_eq pick refs subj c1 href (Nat.pos_iff_ne_zero.mp h1)
  have e2 := create_optimized_nn_eq pick refs subj c2 href (Nat.pos_iff_ne_zero.mp h2)
  refine ⟨e1.trans e2.symm, fun hties => ?_⟩
  rw [e1, create_voronoi_assignment_eq, ← assignFromNN_nearestRef]
  congr 1
  unfold assignFromNN
  apply List.map_congr_left
  intro ip hip
  have hp : ip.2 ∈ subj := by
    have hsnd := List.mem_map_of_mem Prod.snd hip
    rwa [List.enumFrom_map_snd] at hsnd
  rw [pick_eq_nearestRef pick hpick refs ip.2 href (hties _ hp)]

/-- C4 amended witness: the smallest-index rule at a one-reference
one-subject run with chunk sizes 1 and 2, where the nearest reference
is trivially unique. -/
theorem c4_amended_witness :
    create_optimized_voronoi_assignment_nn nearestRef [(0, 0)] [(0, 0)] 1 =
      create_optimized_voronoi_assignment_nn nearestRef [(0, 0)] [(0, 0)] 2 ∧
    ((∀ p ∈ [((0 : ℚ), (0 : ℚ))], UniqueNearest [(0, 0)] p) →
      create_optimized_voronoi_assignment_nn nearestRef [(0, 0)] [(0, 0)] 1 =
        AssignOutcome.ok (create_voronoi_assignment [(0, 0)] [(0, 0)])) :=
  c4_amended nearestRef nearestRef_isNearestChoice [(0, 0)] [(0, 0)] 1 2
    (by decide) (by decide) (by decide)

/-- C5: the assignment records come out in subject insertion order, each
tagged with its original pre-chunking identity, so the identity sequence
is exactly 0, 1, ..., N-1 whatever the chunk size. -/
theorem c5_output_order (refs subj : List Pt) (c : ℕ)
    (href : refs ≠ []) (hc : 0 < c) :
    ∃ recs, create_optimized_voronoi_assignment refs subj c = AssignOutcome.ok recs ∧
      recs.map (fun rec => rec.subjectIdx) = List.range subj.length := by
  refine ⟨assignFrom refs subj 0,
    create_optimized_eq refs subj c href (Nat.pos_iff_ne_zero.mp hc), ?_⟩
  unfold assignFrom
  rw [List.map_map]
  show List.map Prod.fst (List.enumFrom 0 subj) = List.range subj.length
  rw [List.enumFrom_map_fst, ← List.range_eq_range']

/-- C5 witness at a concrete two-subject run with chunk size 2. -/
theorem c5_witness :
    ∃ recs, create_optimized_voronoi_assignment [(0, 0), (0, 10)] [(0, 4), (0, 6)] 2 =
        AssignOutcome.ok recs ∧
      recs.map (fun rec => rec.subjectIdx) = List.range 2 :=
  c5_output_order [(0, 0), (0, 10)] [(0, 4), (0, 6)] 2 (by decide) (by decide)

/-- C6 counterexample: with an empty reference set the optimized batch run
ends in the uncaught untyped ValueError raised by the index build, which
is not the typed EmptyReferenceSet failure the claim asserts. -/
theorem c6_counterexample :
    create_optimized_voronoi_assignment [] [(0, 4)] 1 = AssignOutcome.uncaughtValueError ∧
    AssignOutcome.uncaughtValueError ≠ AssignOutcome.emptyReferenceSet :=
  ⟨rfl, by decide⟩

/-- C6 amended: an empty reference set does abort the run before any
record or degenerate distance is produced, but through an uncaught
untyped exception (a crash), never through a typed EmptyReferenceSet
failure. -/
theorem c6_amended (subj : List Pt) (c : ℕ) :
    create_optimized_voronoi_assignment [] subj c = AssignOutcome.uncaughtValueError := rfl

/-- C7 counterexample: on a one-point index, a k at most 0 query returns a
plain empty list, the very value a legitimate no-index query returns, so
the failure is a silently empty result and no typed InvalidArgument
failure exists in the interface. -/
theorem c7_counterexample :
    fast_nearest_points ⟨[(0, 0)], some [(0, 0)]⟩ [(0, 0)] 0 = [] ∧
    fast_nearest_points ⟨[(0, 0)], some [(0, 0)]⟩ [(0, 0)] (-3) = [] ∧
    fast_nearest_points ⟨[(0, 0)], some [(0, 0)]⟩ [(0, 0)] 0 =
      fast_nearest_points initState [(0, 0)] 5 := by decide

/-- C7 amended: for every state and query batch, k at most 0 makes
fast_nearest_points return the empty list (the underlying scipy
ValueError is caught and logged), not a typed failure. -/
theorem c7_amended (st : FastState) (qs : List Pt) (k : ℤ) (hk : k ≤ 0) :
    fast_nearest_points st qs k = [] := by
  obtain ⟨points, kd⟩ := st
  cases kd
  · rfl
  · exact if_pos hk

/-- C7 witness: the amended behaviour at a built one-point index and a
negative k. -/
theorem c7_amended_witness :
    fast_nearest_points ⟨[(0, 0)], some [(0, 0)]⟩ [(0, 0)] (-1) = [] :=
  c7_amended ⟨[(0, 0)], some [(0, 0)]⟩ [(0, 0)] (-1) (by decide)

/-- C8 counterexample: two ingestion inputs whose rejected counts differ
(zero and one rejections) produce byte-identical bulk-load results, so
no caller can read any rejected count off the operation's outcome. -/
theorem c8_counterexample :
    bulk_insert_points initState [(some (-23), some (-46))] =
      bulk_insert_points initState [(some (-23), some (-46)), (some 0, some 0)] ∧
    rejectedCount [(some (-23), some (-46))] ≠
      rejectedCount [(some (-23), some (-46)), (some 0, some 0)] := by decide

/-- C8 amended: bulk load returns only a success flag, true exactly when
at least one record survives the filters; the survivors are stored in
order (so the accepted count is recoverable as the store size) while
rejected records are dropped silently, without aborting the ingestion
and without any rejection count in the result. -/
theorem c8_amended (rows : List RawRecord) :
    (bulk_insert_points initState rows).1.points = acceptedPoints rows ∧
    ((bulk_insert_points initState rows).2 = true ↔ acceptedPoints rows ≠ []) := by
  unfold bulk_insert_points
  by_cases he : (acceptedPoints rows).isEmpty
  · rw [if_pos he]
    have hnil := List.isEmpty_iff.mp he
    simp [hnil]
  · rw [if_neg he]
    have hne : acceptedPoints rows ≠ [] := by simpa [List.isEmpty_iff] using he
    simp [hne]

/-- C9: a bulk load in which every record is rejected leaves the instance
without an index, and then every range query and every k-nearest query
answers empty, for all centers, radii, query batches and k. -/
theorem c9_empty_index (rows : List RawRecord) (hrows : acceptedPoints rows = [])
    (center : ℝ × ℝ) (radiusKm : ℝ) (qs : List Pt) (k : ℤ) :
    fast_spatial_query (bulk_insert_points initState rows).1 center radiusKm = ∅ ∧
    fast_nearest_points (bulk_insert_points initState rows).1 qs k = [] := by
  have hstate : (bulk_insert_points initState rows).1 = { points := [], kdtree := none } := by
    unfold bulk_insert_points
    rw [if_pos (by rw [hrows]; rfl)]
    simp [hrows, initState]
  rw [hstate]
  exact ⟨rfl, rfl⟩

/-- C1 counterexample: at a query centre on the equator the longitude
conversion's denominator is exactly zero; the code catches the resulting
ZeroDivisionError and returns the empty list, so even a stored point
coinciding with the centre (kilometre distance 0 under the code's own
conversion, and under any other reading) is not returned - a false
negative the claim's universal quantification over centres forbids. -/
theorem c1_counterexample :
    kmDistSq ((0 : ℝ), (0 : ℝ)) (toR ((0 : ℚ), (0 : ℚ))) ≤ 1 ^ 2 ∧
    fast_spatial_query ⟨[((0 : ℚ), (0 : ℚ))], some [((0 : ℚ), (0 : ℚ))]⟩
      ((0 : ℝ), (0 : ℝ)) 1 = ∅ := by
  constructor
  · norm_num [kmDistSq, kmPerDegLon, toR]
  · ext i
    simp only [fast_spatial_query, Set.mem_setOf_eq, Set.mem_empty_iff_false, iff_false]
    intro hmem
    exact hmem.1 rfl

/-- C1 amended: for every query centre whose latitude is nonzero, every
stored point whose linearized kilometre distance to the centre, measured
with the code's own per-axis degree-to-kilometre conversion factors, is
at most the query radius is returned by the range query: the index
lookup uses the single symmetric degree radius max(latRadius,
lonRadius), which contains the whole anisotropic kilometre circle, so
there are no false negatives. At a centre with latitude exactly 0 the
conversion divides by zero and the caught ZeroDivisionError makes the
query return empty instead, missing every in-circle point; see the
counterexample. -/
theorem c1_range_query_superset (st : FastState) (pts : List Pt)
    (hst : st.kdtree = some pts) (i : ℕ) (hi : i < pts.length)
    (center : ℝ × ℝ) (radiusKm : ℝ) (hr : 0 < radiusKm) (hlat : center.1 ≠ 0)
    (hin : kmDistSq center (toR (pts.get ⟨i, hi⟩)) ≤ radiusKm ^ 2) :
    i ∈ fast_spatial_query st center radiusKm := by
  obtain ⟨spts, skd⟩ := st
  simp only at hst
  subst hst
  simp only [fast_spatial_query, Set.mem_setOf_eq]
  refine ⟨hlat, hi, ?_⟩
  unfold kmDistSq at hin
  unfold distSqR latRadius lonRadius
  set p := toR (pts.get ⟨i, hi⟩) with hp
  set A : ℝ := (111.32 : ℝ) with hA
  set B : ℝ := kmPerDegLon center.1 with hB
  set dx := p.1 - center.1 with hdx
  set dy := p.2 - center.2 with hdy
  have hApos : (0 : ℝ) < A := by rw [hA]; norm_num
  have hBpos : (0 : ℝ) < B := by
    rw [hB]
    unfold kmPerDegLon
    have h1 : (0 : ℝ) < |center.1| := abs_pos.mpr hlat
    have h2 := Real.pi_pos
    positivity
  rcases le_total A B with hAB | hBA
  · have hkey : dx ^ 2 + dy ^ 2 ≤ (radiusKm / A) ^ 2 := by
      rw [div_pow, le_div_iff₀ (pow_pos hApos 2)]
      have hA2 : A ^ 2 * dy ^ 2 ≤ B ^ 2 * dy ^ 2 :=
        mul_le_mul_of_nonneg_right (pow_le_pow_left₀ hApos.le hAB 2) (sq_nonneg dy)
      nlinarith [hin, hA2]
    exact le_trans hkey
      (pow_le_pow_left₀ (div_nonneg hr.le hApos.le) (le_max_left _ _) 2)
  · have hkey : dx ^ 2 + dy ^ 2 ≤ (radiusKm / B) ^ 2 := by
      rw [div_pow, le_div_iff₀ (pow_pos hBpos 2)]
      have hB2 : B ^ 2 * dx ^ 2 ≤ A ^ 2 * dx ^ 2 :=
        mul_le_mul_of_nonneg_right (pow_le_pow_left₀ hBpos.le hBA 2) (sq_nonneg dx)
      nlinarith [hin, hB2]
    exact le_trans hkey
      (pow_le_pow_left₀ (div_nonneg hr.le hBpos.le) (le_max_right _ _) 2)

/-- C1 witness: a one-point index queried at the point itself with a one
kilometre radius. -/
theorem c1_witness :
    (0 : ℕ) ∈ fast_spatial_query
      ⟨[((-23 : ℚ), (-46 : ℚ))], some [((-23 : ℚ), (-46 : ℚ))]⟩
      ((-23 : ℝ), (-46 : ℝ)) 1 :=
  c1_range_query_superset ⟨[((-23 : ℚ), (-46 : ℚ))], some [((-23 : ℚ), (-46 : ℚ))]⟩
    [((-23 : ℚ), (-46 : ℚ))] rfl 0 (by norm_num) ((-23 : ℝ), (-46 : ℝ)) 1
    (by norm_num) (by norm_num)
    (by norm_num [kmDistSq, kmPerDegLon, toR, List.get])

/-- C2 code evaluation: at centre latitude 60 degrees and radius 1 km the
code's longitude radius differs from the cosine-based conversion the
claim states, because line 107 converts the latitude to radians but
never applies the cosine; moreover at centre latitude 0 the code's
conversion denominator is exactly zero (the Python raises
ZeroDivisionError there, while the cosine formula would give the
equator's full 111.32 km per degree). -/
theorem c2_lonRadius_code_differs :
    lonRadius 1 60 ≠ lonRadiusSpec 1 60 ∧ kmPerDegLon 0 = 0 := by
  constructor
  · have hcos : Real.cos ((60 : ℝ) * Real.pi / 180) = 1 / 2 := by
      have h3 : (60 : ℝ) * Real.pi / 180 = Real.pi / 3 := by ring
      rw [h3, Real.cos_pi_div_three]
    have hpi := Real.pi_gt_three
    unfold lonRadius lonRadiusSpec kmPerDegLon
    rw [hcos]
    have h60 : |(60 : ℝ)| = 60 := abs_of_pos (by norm_num)
    rw [h60]
    have hd1 : (111.32 : ℝ) * (1 / 2) < 111.32 * 60 * Real.pi / 180 := by nlinarith
    have hd2 : (0 : ℝ) < 111.32 * (1 / 2) := by norm_num
    exact ne_of_lt (one_div_lt_one_div_of_lt hd2 hd1)
  · unfold kmPerDegLon
    simp

/-- C3 counterexample: over a one-point index, k = 2 returns the identity
list [0, 1] (no distances attached): its length is 2 rather than
min(k, size) = 1, and the entry 1 is the out-of-range sentinel identity
equal to the index size. -/
theorem c3_counterexample :
    fast_nearest_points ⟨[(0, 0)], some [(0, 0)]⟩ [(0, 0)] 2 = [[0, 1]] ∧
    ¬ (([0, 1] : List ℕ).length = min 2 [((0 : ℚ), (0 : ℚ))].length) ∧
    ¬ ((1 : ℕ) < [((0 : ℚ), (0 : ℚ))].length) := by decide

/-- C3 amended: fast_nearest_points yields one identity list per query
point, identities only, no distances. For 1 ≤ k ≤ index size each list
holds exactly k valid identities in ascending distance order from its
query point (ties resolved by identity in this model; scipy leaves tie
order unspecified). For k above the index size the answer is padded to
length k with the sentinel identity equal to the index size instead of
being truncated to min(k, size); see the counterexample. -/
theorem c3_amended (st : FastState) (pts qs : List Pt) (k : ℕ)
    (hst : st.kdtree = some pts) (hk1 : 1 ≤ k) (hk2 : k ≤ pts.length) :
    (fast_nearest_points st qs (k : ℤ)).length = qs.length ∧
    ∀ l ∈ fast_nearest_points st qs (k : ℤ), ∃ q ∈ qs,
      l.length = k ∧ (∀ i ∈ l, i < pts.length) ∧
      l.Pairwise (fun i j =>
        distSq (pts.getD i (0, 0)) q ≤ distSq (pts.getD j (0, 0)) q) := by
  obtain ⟨spts, skd⟩ := st
  simp only at hst
  subst hst
  have hknot : ¬ ((k : ℤ) ≤ 0) := by omega
  have hred : fast_nearest_points ⟨spts, some pts⟩ qs (k : ℤ) =
      qs.map fun q => knnIndices pts q (k : ℤ).toNat := by
    unfold fast_nearest_points
    dsimp only
    rw [if_neg hknot]
  rw [hred]
  have htn : ((k : ℤ)).toNat = k := Int.toNat_ofNat k
  constructor
  · exact List.length_map _ _
  · intro l hl
    rw [List.mem_map] at hl
    obtain ⟨q, hq, rfl⟩ := hl
    rw [htn]
    exact ⟨q, hq, length_knnIndices pts q k,
      fun i hi => mem_knnIndices_lt hk2 hi,
      knnIndices_pairwise pts q k hk2⟩

/-- C3 amended witness: one-point index, one query, k = 1. -/
theorem c3_amended_witness :
    (fast_nearest_points ⟨[(0, 0)], some [(0, 0)]⟩ [(0, 0)] ((1 : ℕ) : ℤ)).length =
        [((0 : ℚ), (0 : ℚ))].length ∧
    ∀ l ∈ fast_nearest_points ⟨[(0, 0)], some [(0, 0)]⟩ [(0, 0)] ((1 : ℕ) : ℤ),
      ∃ q ∈ [((0 : ℚ), (0 : ℚ))], l.length = 1 ∧
        (∀ i ∈ l, i < [((0 : ℚ), (0 : ℚ))].length) ∧
        l.Pairwise (fun i j =>
          distSq ([((0 : ℚ), (0 : ℚ))].getD i (0, 0)) q ≤
            distSq ([((0 : ℚ), (0 : ℚ))].getD j (0, 0)) q) :=
  c3_amended ⟨[(0, 0)], some [(0, 0)]⟩ [(0, 0)] [(0, 0)] 1 rfl (by decide) (by decide)

/-- C10 counterexample: after a successful bulk load of one in-box point,
the k-nearest query with k = 2 returns the sentinel identity 1, which
refers to no stored point at all, so not every returned identity refers
to a point inside the box. -/
theorem c10_counterexample :
    (bulk_insert_points initState [(some (-23), some (-46))]).2 = true ∧
    fast_nearest_points (bulk_insert_points initState [(some (-23), some (-46))]).1
      [(-23, -46)] 2 = [[0, 1]] ∧
    ¬ ((1 : ℕ) <
      (bulk_insert_points initState [(some (-23), some (-46))]).1.points.length) := by
  decide

/-- C10 amended: after every successful bulk load, every stored point lies
in the hard-coded Sao Paulo box (latitude between -24 and -23, longitude
between -47 and -46) and the index is built over exactly the stored
filtered sequence; every identity a range query returns, and every
identity an unpadded k-nearest query (1 ≤ k ≤ size) returns, refers to a
stored point inside that box. Queries with k above the size additionally
return the sentinel identity, which refers to no point; see the
counterexample. -/
theorem c10_amended (rows : List RawRecord) (st' : FastState)
    (h : bulk_insert_points initState rows = (st', true)) :
    (∀ p ∈ st'.points, inSaoPauloBox p) ∧
    st'.kdtree = some st'.points ∧
    (∀ (center : ℝ × ℝ) (radiusKm : ℝ) (i : ℕ),
      i ∈ fast_spatial_query st' center radiusKm →
      ∃ hp : i < st'.points.length, inSaoPauloBox (st'.points.get ⟨i, hp⟩)) ∧
    (∀ (qs : List Pt) (k : ℕ), 1 ≤ k → k ≤ st'.points.length →
      ∀ l ∈ fast_nearest_points st' qs (k : ℤ), ∀ i ∈ l,
        ∃ hp : i < st'.points.length, inSaoPauloBox (st'.points.get ⟨i, hp⟩)) := by
  obtain ⟨hpoints, hkd⟩ := bulk_insert_points_true h
  obtain ⟨spts, skd⟩ := st'
  simp only at hpoints hkd
  subst hpoints
  subst hkd
  have hbox : ∀ p ∈ acceptedPoints rows, inSaoPauloBox p :=
    fun p hp => mem_acceptedPoints_box hp
  refine ⟨hbox, rfl, ?_, ?_⟩
  · intro center radiusKm i hi
    simp only [fast_spatial_query, Set.mem_setOf_eq] at hi
    obtain ⟨-, hp, -⟩ := hi
    exact ⟨hp, hbox _ (List.get_mem _ _ _)⟩
  · intro qs k hk1 hk2 l hl i hil
    have hknot : ¬ ((k : ℤ) ≤ 0) := by omega
    unfold fast_nearest_points at hl
    dsimp only at hl
    rw [if_neg hknot, List.mem_map] at hl
    obtain ⟨q, -, rfl⟩ := hl
    rw [Int.toNat_ofNat k] at hil
    dsimp only at hk2
    exact ⟨mem_knnIndices_lt hk2 hil, hbox _ (List.get_mem _ _ _)⟩

/-- C10 amended witness at the one-point in-box load. -/
theorem c10_amended_witness :
    (∀ p ∈ [((-23 : ℚ), (-46 : ℚ))], inSaoPauloBox p) ∧
    (some [((-23 : ℚ), (-46 : ℚ))] : Option (List Pt)) = some [((-23 : ℚ), (-46 : ℚ))] ∧
    (∀ (center : ℝ × ℝ) (radiusKm : ℝ) (i : ℕ),
      i ∈ fast_spatial_query ⟨[(-23, -46)], some [(-23, -46)]⟩ center radiusKm →
      ∃ hp : i < [((-23 : ℚ), (-46 : ℚ))].length,
        inSaoPauloBox ([((-23 : ℚ), (-46 : ℚ))].get ⟨i, hp⟩)) ∧
    (∀ (qs : List Pt) (k : ℕ), 1 ≤ k → k ≤ [((-23 : ℚ), (-46 : ℚ))].length →
      ∀ l ∈ fast_nearest_points ⟨[(-23, -46)], some [(-23, -46)]⟩ qs (k : ℤ), ∀ i ∈ l,
        ∃ hp : i < [((-23 : ℚ), (-46 : ℚ))].length,
          inSaoPauloBox ([((-23 : ℚ), (-46 : ℚ))].get ⟨i, hp⟩)) :=
  c10_amended [(some (-23), some (-46))] ⟨[(-23, -46)], some [(-23, -46)]⟩ (by decide)

/-- C9 witness: a one-row input whose record lacks its latitude. -/
theorem c9_witness :
    fast_spatial_query (bulk_insert_points initState [(none, some 5)]).1 (0, 0) 5 = ∅ ∧
    fast_nearest_points (bulk_insert_points initState [(none, some 5)]).1 [(0, 0)] 3 = [] :=
  c9_empty_index [(none, some 5)] (by decide) (0, 0) 5 [(0, 0)] 3

end GeoComp
